import Mathlib

/-!
Verification of the employee-management REST backend.

The definitions below are a shallow embedding of the Python sources:
  - `backend/app/utils/validators.py`  (field validators)
  - `backend/app/utils/file_utils.py`  (upload validation helpers)
  - `backend/app/models/employee.py`   (Employee model, soft delete / restore)
  - `backend/app/routes/employees.py`  (request handlers)
  - `backend/app/config.py`            (upload size limit)

Strings are Lean `String`s; Python `Decimal` values and the `Numeric(10,2)`
salary column are embedded as `ℚ`; dates are `PyDate` triples; the database
is a `List Employee`.  Clock- and filesystem-dependent inputs (today's date,
timestamps, whether PIL can decode an uploaded byte stream) are passed as
explicit parameters.
-/

deriving instance DecidableEq for Except

namespace EMS

/-! ### Python string primitives -/

/-- Python whitespace characters recognised by `str.strip()` (ASCII range). -/
def pySpace (c : Char) : Bool :=
  c = ' ' || c = '\t' || c = '\n' || c = '\r' || c = '\x0b' || c = '\x0c'

/-- `str.strip()` on a character list. -/
def pyStripL (l : List Char) : List Char :=
  ((l.dropWhile pySpace).reverse.dropWhile pySpace).reverse

/-- `str.strip()`. -/
def pyStrip (s : String) : String := ⟨pyStripL s.toList⟩

/-- `str.lower()` (ASCII case folding, which is all the code relies on). -/
def pyLower (s : String) : String := ⟨s.toList.map Char.toLower⟩

/-- Decimal digit list to number. -/
def digitsToNat (l : List Char) : Nat :=
  l.foldl (fun a c => a * 10 + (c.toNat - 48)) 0

/-- A non-empty all-digit field of bounded width (used by the strptime model). -/
def numField (maxLen : Nat) (l : List Char) : Option Nat :=
  if l ≠ [] ∧ l.length ≤ maxLen ∧ l.all Char.isDigit then some (digitsToNat l) else none

/-- Substring occurrence test on character lists. -/
def isSub (needle hay : List Char) : Bool :=
  (List.range (hay.length + 1)).any fun i => (hay.drop i).take needle.length == needle

/-- Case-insensitive substring test: SQL `ilike '%needle%'`. -/
def containsCI (hay needle : String) : Bool :=
  isSub (pyLower needle).toList (pyLower hay).toList

/-! ### `sanitize_text` (validators.py)

`bleach.clean(text, tags=[], strip=True)` followed by `.strip()`: markup tags
are removed and the result is trimmed.  The tag removal is modelled as
dropping every span between `<` and the next `>` (an unterminated `<` drops
the rest of the input). -/

def stripTagsAux : Bool → List Char → List Char
  | _, [] => []
  | true, c :: cs => if c = '>' then stripTagsAux false cs else stripTagsAux true cs
  | false, c :: cs => if c = '<' then stripTagsAux true cs else c :: stripTagsAux false cs

def sanitize_text (s : String) : String :=
  ⟨pyStripL (stripTagsAux false s.toList)⟩

/-! ### Field validators (validators.py)

Each validator mirrors the Python function of the same name; the Python
convention of returning `(False, message)` / `(True, value)` becomes
`Except String α`. -/

/-- Characters accepted by the local part of the email regex. -/
def emailLocalChar (c : Char) : Bool :=
  c.isAlphanum || c = '.' || c = '_' || c = '%' || c = '+' || c = '-'

/-- Characters accepted before the final dot of the email domain. -/
def emailDomChar (c : Char) : Bool :=
  c.isAlphanum || c = '.' || c = '-'

/-- The domain part must match `[a-zA-Z0-9.-]+\.[a-zA-Z]{2,}`. -/
def emailDomainOk (d : List Char) : Bool :=
  (List.range d.length).any fun i =>
    decide (1 ≤ i) && (d.take i).all emailDomChar &&
    ((d.drop i).take 1 == ['.']) &&
    (d.drop (i + 1)).all Char.isAlpha && decide (2 ≤ (d.drop (i + 1)).length)

/-- `validate_email`: `^[a-zA-Z0-9._%+-]+@[a-zA-Z0-9.-]+\.[a-zA-Z]{2,}$`. -/
def validate_email (s : String) : Bool :=
  if s = "" then false
  else
    match s.toList.splitOn '@' with
    | [l, d] =>
        decide (l ≠ []) && l.all emailLocalChar && emailDomainOk d
    | _ => false

/-- Body characters of the phone regex: `[\d\-\(\)\s]`. -/
def phoneBodyChar (c : Char) : Bool :=
  c.isDigit || c = '-' || c = '(' || c = ')' || pySpace c

/-- `validate_phone`: `^[\+]?[1-9][\d\-\(\)\s]{7,15}$`; empty input is accepted
(the field is optional). -/
def validate_phone (s : String) : Bool :=
  if s = "" then true
  else
    let l := match s.toList with
      | '+' :: r => r
      | r => r
    match l with
    | c :: rest =>
        ('1' ≤ c && c ≤ '9') && rest.all phoneBodyChar &&
        decide (7 ≤ rest.length) && decide (rest.length ≤ 15)
    | [] => false

/-- Characters allowed in a name: `[a-zA-Z\s\-'\.]`. -/
def nameChar (c : Char) : Bool :=
  c.isAlpha || pySpace c || c = '-' || c = '\'' || c = '.'

/-- `validate_name`. -/
def validate_name (name : String) : Except String String :=
  if name = "" then .error "Name is required"
  else
    let n := sanitize_text name
    if n.length < 2 then .error "Name must be at least 2 characters"
    else if n.length > 100 then .error "Name must be less than 100 characters"
    else if n.toList.all nameChar then .ok n
    else .error "Name contains invalid characters"

/-- `validate_department`. -/
def validate_department (dep : String) : Except String String :=
  if dep = "" then .error "Department is required"
  else
    let d := sanitize_text dep
    if d.length < 2 then .error "Department name must be at least 2 characters"
    else if d.length > 50 then .error "Department name must be less than 50 characters"
    else .ok d

/-- `validate_position`. -/
def validate_position (pos : String) : Except String String :=
  if pos = "" then .error "Position is required"
  else
    let p := sanitize_text pos
    if p.length < 2 then .error "Position must be at least 2 characters"
    else if p.length > 50 then .error "Position must be less than 50 characters"
    else .ok p

/-- `validate_status`. -/
def validate_status (st : String) : Except String String :=
  if st = "Active" ∨ st = "Inactive" then .ok st
  else .error "Status must be one of: Active, Inactive"

/-- `validate_address`; the empty string is accepted unchanged. -/
def validate_address (a : String) : Except String String :=
  if a = "" then .ok a
  else
    let t := sanitize_text a
    if t.length > 200 then .error "Address must be less than 200 characters"
    else .ok t

/-! ### Calendar dates and `strptime` (Python `datetime.date`) -/

structure PyDate where
  year : Nat
  month : Nat
  day : Nat
deriving DecidableEq, Repr

def isLeap (y : Nat) : Bool :=
  y % 4 == 0 && (y % 100 != 0 || y % 400 == 0)

def daysInMonth (y m : Nat) : Nat :=
  if m = 2 then (if isLeap y then 29 else 28)
  else if m = 4 ∨ m = 6 ∨ m = 9 ∨ m = 11 then 30
  else 31

/-- A valid proleptic-Gregorian date within Python's `datetime` year range. -/
def validDate (y m d : Nat) : Bool :=
  decide (1 ≤ y) && decide (y ≤ 9999) && decide (1 ≤ m) && decide (m ≤ 12) &&
  decide (1 ≤ d) && decide (d ≤ daysInMonth y m)

/-- Strict chronological order on dates. -/
def dateLt (a b : PyDate) : Bool :=
  decide (a.year < b.year) ||
  (a.year == b.year &&
    (decide (a.month < b.month) ||
     (a.month == b.month && decide (a.day < b.day))))

/-- `strptime(s, fmt)` for a three-field numeric date format: the string must
split at the separator into exactly three digit fields of the given maximum
widths (`%Y` up to 4 digits, `%m`/`%d` up to 2), forming a valid date. -/
def strptime3 (sep : Char) (w1 w2 w3 : Nat) (s : String) :
    Option (Nat × Nat × Nat) :=
  match s.toList.splitOn sep with
  | [a, b, c] => do
      let x ← numField w1 a
      let y ← numField w2 b
      let z ← numField w3 c
      pure (x, y, z)
  | _ => none

/-- `strptime(s, '%Y-%m-%d').date()`. -/
def strptimeYMD (s : String) : Option PyDate := do
  let (y, m, d) ← strptime3 '-' 4 2 2 s
  if validDate y m d then pure ⟨y, m, d⟩ else none

/-- `strptime(s, '%m/%d/%Y').date()`. -/
def strptimeMDY (s : String) : Option PyDate := do
  let (m, d, y) ← strptime3 '/' 2 2 4 s
  if validDate y m d then pure ⟨y, m, d⟩ else none

/-- `strptime(s, '%d-%m-%Y').date()`. -/
def strptimeDMY (s : String) : Option PyDate := do
  let (d, m, y) ← strptime3 '-' 2 2 4 s
  if validDate y m d then pure ⟨y, m, d⟩ else none

/-- `validate_hire_date` (string branch; the route always passes a stripped
string).  `today` abstracts `date.today()`. -/
def validate_hire_date (today : PyDate) (s : String) : Except String PyDate :=
  if s = "" then .error "Hire date is required"
  else
    match strptimeYMD s <|> strptimeMDY s <|> strptimeDMY s with
    | none => .error "Invalid date format. Use one of: %Y-%m-%d, %m/%d/%Y, %d-%m-%Y"
    | some hd =>
      if dateLt today hd then .error "Hire date cannot be in the future"
      else if dateLt hd ⟨today.year - 100, 1, 1⟩ then
        .error "Hire date is too far in the past"
      else .ok hd

/-! ### Python `Decimal` and `validate_salary`

`Decimal(str)` is modelled by `parsePyDec`: the constructor strips
whitespace, deletes underscores and matches
`[+-]? ( digits [. digits]? (E[+-]?digits)? | Inf(inity)? | s?NaN digits* )`
case-insensitively.  Finite values are exact rationals. -/

inductive PyDec where
  | fin (q : ℚ)
  | pinf
  | ninf
  | nan
deriving DecidableEq, Repr

/-- Non-empty digit run. -/
def isDigits (l : List Char) : Bool := decide (l ≠ []) && l.all Char.isDigit

/-- Mantissa `digits [. digits]` with at least one digit overall. -/
def parseMantissa (l : List Char) : Option ℚ :=
  match l.splitOn '.' with
  | [ip] => if isDigits ip then some ((digitsToNat ip : ℚ)) else none
  | [ip, fp] =>
      if ip.all Char.isDigit && fp.all Char.isDigit && decide (ip ≠ [] ∨ fp ≠ []) then
        some (Rat.divInt ((digitsToNat (ip ++ fp) : ℕ) : Int) (((10 ^ fp.length : ℕ) : Int)))
      else none
  | _ => none

/-- Signed exponent field after `E`. -/
def parseExp (l : List Char) : Option Int :=
  match l with
  | '+' :: r => if isDigits r then some ((digitsToNat r : Int)) else none
  | '-' :: r => if isDigits r then some (-(digitsToNat r : Int)) else none
  | r => if isDigits r then some ((digitsToNat r : Int)) else none

/-- Split at the first `e`/`E`. -/
def splitAtE (l : List Char) : List Char × Option (List Char) :=
  match l.findIdx? (fun c => c = 'e' || c = 'E') with
  | none => (l, none)
  | some i => (l.take i, some (l.drop (i + 1)))

/-- `NaN` body (after the optional sign): `s?nan digits*`, case-insensitive. -/
def nanBody (l : List Char) : Bool :=
  let low := l.map Char.toLower
  let core := match low with
    | 's' :: t => t
    | t => t
  match core with
  | 'n' :: 'a' :: 'n' :: ds => ds.all Char.isDigit
  | _ => false

/-- Multiply an exact rational by `10 ^ e`, written on the numerator and
denominator so that it evaluates inside the kernel. -/
def applyExp (q : ℚ) : Int → ℚ
  | .ofNat n => Rat.divInt (q.num * ((10 ^ n : ℕ) : Int)) ((q.den : ℕ) : Int)
  | .negSucc n => Rat.divInt q.num (((q.den : ℕ) : Int) * ((10 ^ (n + 1) : ℕ) : Int))

/-- Unsigned finite numeral with optional exponent. -/
def parseFinite (l : List Char) : Option ℚ :=
  let (m, eo) := splitAtE l
  do
    let mant ← parseMantissa m
    let ex ← match eo with
      | none => some (0 : Int)
      | some t => parseExp t
    pure (applyExp mant ex)

/-- `Decimal(s)` on an already cleaned character list (sign handling plus the
special values). -/
def parsePyDecCore (l : List Char) : Option PyDec :=
  let (neg, r) := match l with
    | '+' :: r => (false, r)
    | '-' :: r => (true, r)
    | r => (false, r)
  let low := r.map Char.toLower
  if low = "infinity".toList ∨ low = "inf".toList then
    some (if neg then .ninf else .pinf)
  else if nanBody r then some .nan
  else
    match parseFinite r with
    | some q => some (.fin (if neg then -q else q))
    | none => none

/-- `Decimal(s)` for a string: strip whitespace, delete underscores, parse. -/
def parsePyDec (s : String) : Option PyDec :=
  parsePyDecCore ((pyStripL s.toList).filter (fun c => c ≠ '_'))

/-- The 9,999,999.99 salary cap. -/
def salaryCap : ℚ := Rat.divInt 999999999 100

/-- `salary.replace('$', '').replace(',', '').strip()`: removing every
occurrence of the one-character patterns is a character filter. -/
def stripSalary (s : String) : String :=
  ⟨pyStripL (s.toList.filter (fun c => !(c == '$' || c == ',')))⟩

/-- Salary inputs reaching `validate_salary` from a JSON body: a number
(integers; floats are not modelled), a string, or JSON `null`. -/
inductive SalaryIn where
  | int (n : Int)
  | str (s : String)
  | null
deriving DecidableEq, Repr

/-- Range checks shared by both branches of `validate_salary`.  A `NaN`
comparison raises `InvalidOperation` in Python, which the caller turns into
"Invalid salary format"; that case is handled before this function. -/
def salaryRange (q : ℚ) : Except String ℚ :=
  if q ≤ 0 then .error "Salary must be greater than 0"
  else if q > salaryCap then .error "Salary is too large"
  else .ok q

/-- `validate_salary`.  On success Python returns `float(salary_decimal)`;
the embedding keeps the exact decimal value `q` that is passed to `float`. -/
def validate_salary (v : SalaryIn) : Except String ℚ :=
  match v with
  | .null => .error "Salary is required"
  | .int n => salaryRange ((n : ℚ))
  | .str s =>
      if s = "" then .error "Salary is required"
      else
        let t := stripSalary s
        if t = "" then .error "Salary is required"
        else
          match parsePyDec t with
          | none => .error "Invalid salary format"
          | some .nan => .error "Invalid salary format"
          | some .pinf => .error "Salary is too large"
          | some .ninf => .error "Salary must be greater than 0"
          | some (.fin q) => salaryRange q

/-! ### The `Employee` model (models/employee.py)

One row of the `employees` table.  `salary` is the exact value of the
`Numeric(10, 2)` column; `deleted_at`, `created_at` and `updated_at` are
abstract timestamps (the ORM's automatic `onupdate` refresh of `updated_at`
is an environment effect and is not modelled). -/

structure Employee where
  id : Nat
  name : String
  email : String
  phone : Option String
  address : Option String
  department : String
  position : String
  salary : ℚ
  hire_date : PyDate
  status : String
  profile_picture_path : Option String
  is_deleted : Bool
  deleted_at : Option Nat
  created_at : Nat
  updated_at : Nat
deriving DecidableEq, Repr

/-- `Employee.soft_delete`: sets the flag, records the deletion time and
forces the status to Inactive. -/
def Employee.soft_delete (e : Employee) (now : Nat) : Employee :=
  { e with is_deleted := true, deleted_at := some now, status := "Inactive" }

/-- `Employee.restore`: clears the flag and the deletion time and forces the
status to Active. -/
def Employee.restore (e : Employee) : Employee :=
  { e with is_deleted := false, deleted_at := none, status := "Active" }

/-! ### Database primitives

The store is a `List Employee`; SQLAlchemy's `.first()` is `List.find?`,
flushing a mutated row is `updateFirst`, `session.delete` is `removeFirst`. -/

/-- Replace the first element satisfying `p` by its `f`-image. -/
def updateFirst (p : α → Bool) (f : α → α) : List α → List α
  | [] => []
  | x :: xs => if p x then f x :: xs else x :: updateFirst p f xs

/-- Remove the first element satisfying `p`. -/
def removeFirst (p : α → Bool) : List α → List α
  | [] => []
  | x :: xs => if p x then xs else x :: removeFirst p xs

/-- Row predicate of `get_active_query().filter_by(id=...)`. -/
def activeWithId (id : Nat) (x : Employee) : Bool :=
  !x.is_deleted && x.id == id

/-- `Employee.get_active_query().filter_by(id=employee_id).first()`. -/
def findActive (db : List Employee) (id : Nat) : Option Employee :=
  db.find? (activeWithId id)

/-! ### Ordering and pagination (GET /api/employees)

`order_by(Employee.name)` is an insertion sort on the name column;
`query.paginate(page=…, per_page=…, error_out=False)` follows
Flask-SQLAlchemy semantics: `page < 1` becomes 1, `per_page < 1` falls back
to the paginator default of 20, out-of-range pages give an empty item list,
`pages = ceil(total / per_page)`. -/

/-- Code-point lexicographic comparison (the collation of `ORDER BY name`). -/
def strLeB : List Char → List Char → Bool
  | [], _ => true
  | _ :: _, [] => false
  | x :: xs, y :: ys =>
      if x.toNat < y.toNat then true
      else if y.toNat < x.toNat then false
      else strLeB xs ys

def insertByName (e : Employee) : List Employee → List Employee
  | [] => [e]
  | x :: xs =>
      if strLeB e.name.toList x.name.toList then e :: x :: xs
      else x :: insertByName e xs

def sortByName : List Employee → List Employee
  | [] => []
  | x :: xs => insertByName x (sortByName xs)

/-- Query parameters of the list endpoint; an empty string means the
parameter is absent or blank (the route strips them). -/
structure ListParams where
  page : Option Int
  per_page : Option Int
  search : String
  department : String
  status : String
  include_deleted : Bool
deriving Repr

/-- Free-text search: case-insensitive substring against name, email,
department or position, joined by OR. -/
def searchPred (s : String) (x : Employee) : Bool :=
  containsCI x.name s || containsCI x.email s ||
  containsCI x.department s || containsCI x.position s

/-- The filter pipeline of `get_employees` before ordering and pagination. -/
def filteredEmployees (db : List Employee) (q : ListParams) : List Employee :=
  let base := if q.include_deleted then db else db.filter (fun x => !x.is_deleted)
  let s1 := if q.search ≠ "" then base.filter (searchPred q.search) else base
  let s2 := if q.department ≠ "" then
      s1.filter (fun x => containsCI x.department q.department) else s1
  if q.status ≠ "" then s2.filter (fun x => x.status == q.status) else s2

/-- `request.args.get('page', 1, type=int)` followed by the paginator's
`page < 1` fallback. -/
def effectivePage (q : ListParams) : Int :=
  let p := q.page.getD 1
  if p < 1 then 1 else p

/-- `min(request.args.get('per_page', 10, type=int), 100)` followed by the
paginator's `per_page < 1` fallback. -/
def effectivePerPage (q : ListParams) : Int :=
  let r := min (q.per_page.getD 10) 100
  if r < 1 then 20 else r

/-- Response of the list endpoint: one page of rows plus the pagination
metadata. -/
structure ListResult where
  employees : List Employee
  page : Int
  per_page : Int
  total : Nat
  pages : Nat
  has_prev : Bool
  has_next : Bool
deriving Repr

/-- `get_employees`: filter, order by name, paginate. -/
def get_employees (db : List Employee) (q : ListParams) : ListResult :=
  let ordered := sortByName (filteredEmployees db q)
  let pNat := (effectivePage q).toNat
  let ppNat := (effectivePerPage q).toNat
  let total := ordered.length
  let pagesN := (total + ppNat - 1) / ppNat
  { employees := (ordered.drop ((pNat - 1) * ppNat)).take ppNat
    page := effectivePage q
    per_page := effectivePerPage q
    total := total
    pages := pagesN
    has_prev := decide (1 < pNat)
    has_next := decide (pNat < pagesN) }

/-- `get_employee`: primary-key lookup, restricted to non-deleted rows unless
`include_deleted` is set. -/
def get_employee (db : List Employee) (id : Nat) (include_deleted : Bool) :
    Option Employee :=
  if include_deleted then db.find? (fun x => x.id == id)
  else findActive db id

/-! ### POST /api/employees (create, "simplified": no field validation) -/

/-- Body of the create endpoint.  Only these six keys are read; a missing key
yields `None` in Python and later violates the column's NOT NULL constraint.
The salary is taken as the numeric value the column would store. -/
structure CreateRequest where
  name : Option String
  email : Option String
  department : Option String
  position : Option String
  salary : Option ℚ
  hire_date : Option String
deriving Repr

inductive CreateResult where
  | badRequest
  | serverError
  | created (e : Employee)
deriving DecidableEq, Repr

/-- `create_employee`: parses `hire_date` with `strptime('%Y-%m-%d')`
(a parse failure raises and is answered with 500 after rollback), builds the
row with the model defaults `status='Active'`, `is_deleted=False`, and
commits.  A missing required field or a duplicate email violates a table
constraint at commit time, which the handler also surfaces as 500 after
rollback.  `newId` and `now` stand for the generated key and `utcnow()`. -/
def create_employee (db : List Employee) (req : Option CreateRequest)
    (newId : Nat) (now : Nat) : CreateResult × List Employee :=
  match req with
  | none => (.badRequest, db)
  | some d =>
    match d.hire_date with
    | none => (.serverError, db)
    | some hs =>
      match strptimeYMD hs with
      | none => (.serverError, db)
      | some hd =>
        match d.name, d.email, d.department, d.position, d.salary with
        | some nm, some em, some dep, some pos, some sal =>
          if db.any (fun x => x.email == em) then (.serverError, db)
          else
            let e : Employee :=
              { id := newId, name := nm, email := em, phone := none,
                address := none, department := dep, position := pos,
                salary := sal, hire_date := hd, status := "Active",
                profile_picture_path := none, is_deleted := false,
                deleted_at := none, created_at := now, updated_at := now }
            (.created e, db ++ [e])
        | _, _, _, _, _ => (.serverError, db)

/-! ### PUT /api/employees/{id} (update)

The handler walks the present fields in source order, validating each one
independently; a valid field is written to the in-memory row, an invalid one
appends its message to `errors`.  If `errors` is non-empty the handler
answers 400 without committing, so the store is unchanged; otherwise the
mutated row is committed. -/

/-- A JSON body for the update endpoint; `none` means the key is absent. -/
structure UpdateRequest where
  name : Option String
  email : Option String
  phone : Option String
  department : Option String
  position : Option String
  salary : Option SalaryIn
  hire_date : Option String
  status : Option String
  address : Option String
deriving Repr

/-- The empty update body. -/
def emptyUpdate : UpdateRequest :=
  { name := none, email := none, phone := none, department := none,
    position := none, salary := none, hire_date := none, status := none,
    address := none }

/-- Accumulator: collected error messages and the in-memory row. -/
abbrev UAcc := List String × Employee

def upd_name (v : Option String) (acc : UAcc) : UAcc :=
  match v with
  | none => acc
  | some s =>
    match validate_name (pyStrip s) with
    | .error m => (acc.1 ++ ["Name: " ++ m], acc.2)
    | .ok r => (acc.1, { acc.2 with name := r })

def upd_email (db : List Employee) (id : Nat) (v : Option String)
    (acc : UAcc) : UAcc :=
  match v with
  | none => acc
  | some s =>
    let em := pyLower (pyStrip s)
    if !validate_email em then
      (acc.1 ++ ["Email: Invalid email format"], acc.2)
    else
      match db.find? (fun x => x.email == em && x.id != id) with
      | some _ => (acc.1 ++ ["Email: Employee with this email already exists"], acc.2)
      | none => (acc.1, { acc.2 with email := em })

def upd_phone (v : Option String) (acc : UAcc) : UAcc :=
  match v with
  | none => acc
  | some s =>
    let ph := pyStrip s
    if ph ≠ "" ∧ !validate_phone ph then
      (acc.1 ++ ["Phone: Invalid phone format"], acc.2)
    else
      (acc.1, { acc.2 with phone := if ph = "" then none else some ph })

def upd_department (v : Option String) (acc : UAcc) : UAcc :=
  match v with
  | none => acc
  | some s =>
    match validate_department (pyStrip s) with
    | .error m => (acc.1 ++ ["Department: " ++ m], acc.2)
    | .ok r => (acc.1, { acc.2 with department := r })

def upd_position (v : Option String) (acc : UAcc) : UAcc :=
  match v with
  | none => acc
  | some s =>
    match validate_position (pyStrip s) with
    | .error m => (acc.1 ++ ["Position: " ++ m], acc.2)
    | .ok r => (acc.1, { acc.2 with position := r })

def upd_salary (v : Option SalaryIn) (acc : UAcc) : UAcc :=
  match v with
  | none => acc
  | some s =>
    match validate_salary s with
    | .error m => (acc.1 ++ ["Salary: " ++ m], acc.2)
    | .ok q => (acc.1, { acc.2 with salary := q })

def upd_hire_date (today : PyDate) (v : Option String) (acc : UAcc) : UAcc :=
  match v with
  | none => acc
  | some s =>
    match validate_hire_date today (pyStrip s) with
    | .error m => (acc.1 ++ ["Hire date: " ++ m], acc.2)
    | .ok r => (acc.1, { acc.2 with hire_date := r })

def upd_status (v : Option String) (acc : UAcc) : UAcc :=
  match v with
  | none => acc
  | some s =>
    match validate_status (pyStrip s) with
    | .error m => (acc.1 ++ ["Status: " ++ m], acc.2)
    | .ok r => (acc.1, { acc.2 with status := r })

def upd_address (v : Option String) (acc : UAcc) : UAcc :=
  match v with
  | none => acc
  | some s =>
    match validate_address (pyStrip s) with
    | .error m => (acc.1 ++ ["Address: " ++ m], acc.2)
    | .ok r => (acc.1, { acc.2 with address := some r })

/-- All nine field steps in handler order, starting from the found row. -/
def updApply (today : PyDate) (db : List Employee) (id : Nat)
    (d : UpdateRequest) (e : Employee) : UAcc :=
  upd_address d.address
    (upd_status d.status
      (upd_hire_date today d.hire_date
        (upd_salary d.salary
          (upd_position d.position
            (upd_department d.department
              (upd_phone d.phone
                (upd_email db id d.email
                  (upd_name d.name ([], e)))))))))

inductive UpdateResult where
  | notFound
  | badRequest
  | validationError (errors : List String)
  | ok (e : Employee)
deriving DecidableEq, Repr

/-- HTTP status of each update outcome. -/
def updateStatusCode : UpdateResult → Nat
  | .notFound => 404
  | .badRequest => 400
  | .validationError _ => 400
  | .ok _ => 200

/-- `update_employee`. -/
def update_employee (today : PyDate) (db : List Employee) (id : Nat)
    (req : Option UpdateRequest) : UpdateResult × List Employee :=
  match findActive db id with
  | none => (.notFound, db)
  | some e =>
    match req with
    | none => (.badRequest, db)
    | some d =>
      let acc := updApply today db id d e
      if acc.1 = [] then
        (.ok acc.2, updateFirst (activeWithId id) (fun _ => acc.2) db)
      else
        (.validationError acc.1, db)

/-! ### DELETE /api/employees/{id} -/

inductive DeleteResult where
  | notFound
  | deletedPermanently
  | deletedSoftly
deriving DecidableEq, Repr

/-- `delete_employee`: only non-deleted rows are found; `permanent=true`
removes the row, otherwise it is soft-deleted. -/
def delete_employee (db : List Employee) (id : Nat) (permanent : Bool)
    (now : Nat) : DeleteResult × List Employee :=
  match findActive db id with
  | none => (.notFound, db)
  | some _ =>
    if permanent then
      (.deletedPermanently, removeFirst (activeWithId id) db)
    else
      (.deletedSoftly, updateFirst (activeWithId id) (fun x => x.soft_delete now) db)

/-! ### POST /api/employees/{id}/restore -/

inductive RestoreResult where
  | notFound
  | conflict
  | ok (e : Employee)
deriving DecidableEq, Repr

/-- Row predicate of `filter_by(id=…, is_deleted=True)`. -/
def deletedWithId (id : Nat) (x : Employee) : Bool :=
  x.id == id && x.is_deleted

/-- `restore_employee`: finds the soft-deleted row, re-checks email
uniqueness against non-deleted rows, then applies `Employee.restore`.  The
conflict answer carries HTTP status 400 with error label "Conflict". -/
def restore_employee (db : List Employee) (id : Nat) :
    RestoreResult × List Employee :=
  match db.find? (deletedWithId id) with
  | none => (.notFound, db)
  | some e =>
    match db.find? (fun x => x.email == e.email && x.id != id && !x.is_deleted) with
    | some _ => (.conflict, db)
    | none =>
      (.ok e.restore, updateFirst (deletedWithId id) Employee.restore db)

/-! ### Profile-picture upload -/

/-- An uploaded multipart file: the claimed filename, the byte length, and
whether PIL's `Image.open(...).verify()` would accept the bytes (the image
decoder itself is the environment). -/
structure UploadFile where
  filename : String
  size : Nat
  decodesAsImage : Bool
deriving DecidableEq, Repr

/-- `ALLOWED_EXTENSIONS` (routes/employees.py and file_utils.py). -/
def allowedExtension (e : String) : Bool :=
  e == "png" || e == "jpg" || e == "jpeg" || e == "gif" || e == "webp"

/-- The characters after the last dot, when a dot occurs:
`filename.rsplit('.', 1)[1]`. -/
def afterLastDot (cs : List Char) : Option (List Char) :=
  match cs.reverse.findIdx? (fun c => c = '.') with
  | none => none
  | some i => some (cs.reverse.take i).reverse

/-- `allowed_file`: the part after the last dot, lowercased, must be an
allowed extension. -/
def allowed_file (filename : String) : Bool :=
  match afterLastDot filename.toList with
  | none => false
  | some ext => allowedExtension (pyLower ⟨ext⟩)

/-- `MAX_FILE_SIZE` (file_utils.py) and the default `MAX_CONTENT_LENGTH`
(config.py): 2 MB. -/
def maxFileSize : Nat := 2 * 1024 * 1024

/-- `os.path.splitext(...)[1]`: the suffix from the last dot of the base
name, ignoring leading dots. -/
def splitextExt (s : String) : String :=
  let cs := s.toList
  let lead := cs.takeWhile (fun c => c = '.')
  let rest := cs.drop lead.length
  match (rest.reverse).findIdx? (fun c => c = '.') with
  | none => ""
  | some i => ⟨'.' :: ((rest.reverse.take i).reverse)⟩

/-- `FileUploadHandler.validate_file` (file_utils.py): extension, size cap
and image-decode checks, collecting messages. -/
def FileUploadHandler.validate_file (file : Option UploadFile) : List String :=
  match file with
  | none => ["No file selected"]
  | some f =>
    if f.filename = "" then ["No file selected"]
    else
      let e1 := if !allowed_file f.filename then
          ["Invalid file type. Allowed types: png, jpg, jpeg, gif, webp"] else []
      let e2 := if !decide (f.size ≤ maxFileSize) then
          ["File too large. Maximum size: 2MB"] else []
      let base := e1 ++ e2
      if base = [] ∧ !f.decodesAsImage then base ++ ["Invalid image file"] else base

inductive UploadResult where
  | notFound
  | noFile
  | noFilename
  | badType
  | tooLarge
  | ok (stored : UploadFile) (path : String)
deriving DecidableEq, Repr

/-- HTTP status of each upload outcome. -/
def uploadStatusCode : UploadResult → Nat
  | .notFound => 404
  | .noFile => 400
  | .noFilename => 400
  | .badType => 400
  | .tooLarge => 413
  | .ok _ _ => 200

/-- The route body of `upload_profile_picture`: after the employee, presence
and extension checks the file is saved to disk and the relative path is
committed on the row.  Neither `validate_file_size` nor `validate_image` is
invoked here.  `ts` stands for the `%Y%m%d_%H%M%S` timestamp. -/
def upload_profile_picture (db : List Employee) (id : Nat)
    (file : Option UploadFile) (ts : String) : UploadResult × List Employee :=
  match findActive db id with
  | none => (.notFound, db)
  | some _ =>
    match file with
    | none => (.noFile, db)
    | some f =>
      if f.filename = "" then (.noFilename, db)
      else if !allowed_file f.filename then (.badType, db)
      else
        let newName := "employee_" ++ toString id ++ "_" ++ ts ++ splitextExt f.filename
        let path := "profiles/" ++ newName
        (.ok f path,
         updateFirst (activeWithId id)
           (fun x => { x with profile_picture_path := some path }) db)

/-- The full endpoint: Flask first rejects any request body larger than
`MAX_CONTENT_LENGTH` with 413, then the route body runs. -/
def upload_endpoint (db : List Employee) (id : Nat)
    (file : Option UploadFile) (ts : String) : UploadResult × List Employee :=
  match file with
  | some f =>
    if f.size > maxFileSize then (.tooLarge, db)
    else upload_profile_picture db id file ts
  | none => upload_profile_picture db id none ts

/-! ### GET /api/employees/stats -/

structure Stats where
  total_employees : Nat
  active_employees : Nat
  inactive_employees : Nat
  deleted_employees : Nat
  departments : List (String × Nat)
deriving Repr

/-- `get_employee_stats`: unfiltered total, status counts over non-deleted
rows, soft-deleted count, and a per-department breakdown of non-deleted
rows. -/
def get_employee_stats (db : List Employee) : Stats :=
  let live := db.filter (fun x => !x.is_deleted)
  { total_employees := db.length
    active_employees := db.countP (fun x => x.status == "Active" && !x.is_deleted)
    inactive_employees := db.countP (fun x => x.status == "Inactive" && !x.is_deleted)
    deleted_employees := db.countP (fun x => x.is_deleted)
    departments :=
      ((live.map (fun x => x.department)).dedup).map
        (fun d => (d, live.countP (fun x => x.department == d))) }

/-! ### Concrete rows used by the witnesses -/

def empA : Employee :=
  { id := 1, name := "Alice", email := "alice@example.com", phone := none,
    address := none, department := "HR", position := "Manager", salary := 1000,
    hire_date := ⟨2020, 1, 2⟩, status := "Active", profile_picture_path := none,
    is_deleted := false, deleted_at := none, created_at := 0, updated_at := 0 }

def empB : Employee :=
  { empA with id := 2, name := "Bob", email := "bob@example.com" }

/-- A fixed "today" for the witnesses. -/
def td : PyDate := ⟨2025, 6, 1⟩

/-! ### Helper lemmas about the database primitives -/

lemma mem_updateFirst {p : α → Bool} {f : α → α} {l : List α} {x : α}
    (hx : x ∈ updateFirst p f l) :
    x ∈ l ∨ ∃ y ∈ l, p y = true ∧ x = f y := by
  induction l with
  | nil => simp [updateFirst] at hx
  | cons a as ih =>
    by_cases hp : p a = true
    · simp only [updateFirst, if_pos hp] at hx
      rcases List.mem_cons.mp hx with h | h
      · exact Or.inr ⟨a, by simp, hp, h⟩
      · exact Or.inl (List.mem_cons_of_mem a h)
    · simp only [updateFirst, if_neg hp] at hx
      rcases List.mem_cons.mp hx with h | h
      · exact Or.inl (by simp [h])
      · rcases ih h with h2 | ⟨y, hy, hpy, hxy⟩
        · exact Or.inl (List.mem_cons_of_mem a h2)
        · exact Or.inr ⟨y, List.mem_cons_of_mem a hy, hpy, hxy⟩

lemma mem_removeFirst {p : α → Bool} {l : List α} {x : α}
    (hx : x ∈ removeFirst p l) : x ∈ l := by
  induction l with
  | nil => simp [removeFirst] at hx
  | cons a as ih =>
    by_cases hp : p a = true
    · simp only [removeFirst, if_pos hp] at hx
      exact List.mem_cons_of_mem a hx
    · simp only [removeFirst, if_neg hp] at hx
      rcases List.mem_cons.mp hx with h | h
      · simp [h]
      · exact List.mem_cons_of_mem a (ih h)

lemma updateFirst_of_find? {p : α → Bool} {f : α → α} {l : List α} {e : α}
    (hf : l.find? p = some e) : f e ∈ updateFirst p f l := by
  induction l with
  | nil => simp at hf
  | cons a as ih =>
    by_cases hp : p a = true
    · rw [List.find?_cons_of_pos _ hp] at hf
      cases hf
      simp [updateFirst, hp]
    · rw [List.find?_cons_of_neg _ hp] at hf
      simp only [updateFirst, if_neg hp]
      exact List.mem_cons_of_mem a (ih hf)

lemma mem_insertByName {e x : Employee} {l : List Employee}
    (h : x ∈ insertByName e l) : x = e ∨ x ∈ l := by
  induction l with
  | nil => simpa [insertByName] using h
  | cons a as ih =>
    unfold insertByName at h
    split at h
    · rcases List.mem_cons.mp h with h1 | h1
      · exact Or.inl h1
      · exact Or.inr h1
    · rcases List.mem_cons.mp h with h1 | h1
      · exact Or.inr (by simp [h1])
      · rcases ih h1 with h2 | h2
        · exact Or.inl h2
        · exact Or.inr (List.mem_cons_of_mem a h2)

lemma insertByName_mem (e : Employee) (l : List Employee) :
    e ∈ insertByName e l := by
  induction l with
  | nil => simp [insertByName]
  | cons a as ih =>
    unfold insertByName
    split
    · simp
    · exact List.mem_cons_of_mem a ih

lemma insertByName_mem_of_mem {x e : Employee} {l : List Employee}
    (h : x ∈ l) : x ∈ insertByName e l := by
  induction l with
  | nil => simp at h
  | cons a as ih =>
    unfold insertByName
    split
    · exact List.mem_cons_of_mem e h
    · rcases List.mem_cons.mp h with h1 | h1
      · simp [h1]
      · exact List.mem_cons_of_mem a (ih h1)

lemma mem_sortByName {x : Employee} {l : List Employee} :
    x ∈ sortByName l ↔ x ∈ l := by
  induction l with
  | nil => simp [sortByName]
  | cons a as ih =>
    constructor
    · intro h
      rcases mem_insertByName h with h | h
      · simp [h]
      · exact List.mem_cons_of_mem a (ih.1 h)
    · intro h
      rcases List.mem_cons.mp h with h1 | h1
      · rw [h1]; exact insertByName_mem a _
      · exact insertByName_mem_of_mem (ih.2 h1)

lemma length_insertByName (e : Employee) (l : List Employee) :
    (insertByName e l).length = l.length + 1 := by
  induction l with
  | nil => rfl
  | cons a as ih =>
    unfold insertByName
    split
    · simp
    · simp [ih]

lemma length_sortByName (l : List Employee) :
    (sortByName l).length = l.length := by
  induction l with
  | nil => rfl
  | cons a as ih => simp [sortByName, length_insertByName, ih]

/-- The one-element window of a list at index `i`. -/
lemma take_one_drop (l : List α) (i : Nat) (h : i < l.length) :
    (l.drop i).take 1 = [l.get ⟨i, h⟩] := by
  induction l generalizing i with
  | nil => simp at h
  | cons a as ih =>
    cases i with
    | zero => simp
    | succ j => simpa using ih j (by simpa using h)

/-! ### Behaviour of the individual update steps

Every step appends zero or more messages to the error list and never touches
the soft-delete flag of the in-memory row. -/

lemma upd_name_step (v : Option String) (acc : UAcc) :
    (∃ ex, (upd_name v acc).1 = acc.1 ++ ex) ∧
    (upd_name v acc).2.is_deleted = acc.2.is_deleted := by
  cases v with
  | none => exact ⟨⟨[], by simp [upd_name]⟩, rfl⟩
  | some s =>
    cases h : validate_name (pyStrip s) with
    | error m =>
      refine ⟨⟨["Name: " ++ m], ?_⟩, ?_⟩ <;> simp [upd_name, h]
    | ok r =>
      refine ⟨⟨[], ?_⟩, ?_⟩ <;> simp [upd_name, h]

lemma upd_email_step (db : List Employee) (id : Nat) (v : Option String)
    (acc : UAcc) :
    (∃ ex, (upd_email db id v acc).1 = acc.1 ++ ex) ∧
    (upd_email db id v acc).2.is_deleted = acc.2.is_deleted := by
  cases v with
  | none => exact ⟨⟨[], by simp [upd_email]⟩, rfl⟩
  | some s =>
    by_cases hv : validate_email (pyLower (pyStrip s)) = true
    · cases hf : db.find? (fun x => x.email == pyLower (pyStrip s) && x.id != id) with
      | none =>
        refine ⟨⟨[], ?_⟩, ?_⟩ <;> simp [upd_email, hv, hf]
      | some y =>
        refine ⟨⟨["Email: Employee with this email already exists"], ?_⟩, ?_⟩ <;>
          simp [upd_email, hv, hf]
    · refine ⟨⟨["Email: Invalid email format"], ?_⟩, ?_⟩ <;>
        simp [upd_email, Bool.eq_false_iff.mpr hv]

lemma upd_phone_step (v : Option String) (acc : UAcc) :
    (∃ ex, (upd_phone v acc).1 = acc.1 ++ ex) ∧
    (upd_phone v acc).2.is_deleted = acc.2.is_deleted := by
  cases v with
  | none => exact ⟨⟨[], by simp [upd_phone]⟩, rfl⟩
  | some s =>
    constructor
    · simp only [upd_phone]
      split
      · exact ⟨["Phone: Invalid phone format"], rfl⟩
      · exact ⟨[], (List.append_nil _).symm⟩
    · simp only [upd_phone]
      split <;> rfl

lemma upd_department_step (v : Option String) (acc : UAcc) :
    (∃ ex, (upd_department v acc).1 = acc.1 ++ ex) ∧
    (upd_department v acc).2.is_deleted = acc.2.is_deleted := by
  cases v with
  | none => exact ⟨⟨[], by simp [upd_department]⟩, rfl⟩
  | some s =>
    cases h : validate_department (pyStrip s) with
    | error m =>
      refine ⟨⟨["Department: " ++ m], ?_⟩, ?_⟩ <;> simp [upd_department, h]
    | ok r =>
      refine ⟨⟨[], ?_⟩, ?_⟩ <;> simp [upd_department, h]

lemma upd_position_step (v : Option String) (acc : UAcc) :
    (∃ ex, (upd_position v acc).1 = acc.1 ++ ex) ∧
    (upd_position v acc).2.is_deleted = acc.2.is_deleted := by
  cases v with
  | none => exact ⟨⟨[], by simp [upd_position]⟩, rfl⟩
  | some s =>
    cases h : validate_position (pyStrip s) with
    | error m =>
      refine ⟨⟨["Position: " ++ m], ?_⟩, ?_⟩ <;> simp [upd_position, h]
    | ok r =>
      refine ⟨⟨[], ?_⟩, ?_⟩ <;> simp [upd_position, h]

lemma upd_salary_step (v : Option SalaryIn) (acc : UAcc) :
    (∃ ex, (upd_salary v acc).1 = acc.1 ++ ex) ∧
    (upd_salary v acc).2.is_deleted = acc.2.is_deleted := by
  cases v with
  | none => exact ⟨⟨[], by simp [upd_salary]⟩, rfl⟩
  | some s =>
    cases h : validate_salary s with
    | error m =>
      refine ⟨⟨["Salary: " ++ m], ?_⟩, ?_⟩ <;> simp [upd_salary, h]
    | ok r =>
      refine ⟨⟨[], ?_⟩, ?_⟩ <;> simp [upd_salary, h]

lemma upd_hire_date_step (today : PyDate) (v : Option String) (acc : UAcc) :
    (∃ ex, (upd_hire_date today v acc).1 = acc.1 ++ ex) ∧
    (upd_hire_date today v acc).2.is_deleted = acc.2.is_deleted := by
  cases v with
  | none => exact ⟨⟨[], by simp [upd_hire_date]⟩, rfl⟩
  | some s =>
    cases h : validate_hire_date today (pyStrip s) with
    | error m =>
      refine ⟨⟨["Hire date: " ++ m], ?_⟩, ?_⟩ <;> simp [upd_hire_date, h]
    | ok r =>
      refine ⟨⟨[], ?_⟩, ?_⟩ <;> simp [upd_hire_date, h]

lemma upd_status_step (v : Option String) (acc : UAcc) :
    (∃ ex, (upd_status v acc).1 = acc.1 ++ ex) ∧
    (upd_status v acc).2.is_deleted = acc.2.is_deleted := by
  cases v with
  | none => exact ⟨⟨[], by simp [upd_status]⟩, rfl⟩
  | some s =>
    cases h : validate_status (pyStrip s) with
    | error m =>
      refine ⟨⟨["Status: " ++ m], ?_⟩, ?_⟩ <;> simp [upd_status, h]
    | ok r =>
      refine ⟨⟨[], ?_⟩, ?_⟩ <;> simp [upd_status, h]

lemma upd_address_step (v : Option String) (acc : UAcc) :
    (∃ ex, (upd_address v acc).1 = acc.1 ++ ex) ∧
    (upd_address v acc).2.is_deleted = acc.2.is_deleted := by
  cases v with
  | none => exact ⟨⟨[], by simp [upd_address]⟩, rfl⟩
  | some s =>
    cases h : validate_address (pyStrip s) with
    | error m =>
      refine ⟨⟨["Address: " ++ m], ?_⟩, ?_⟩ <;> simp [upd_address, h]
    | ok r =>
      refine ⟨⟨[], ?_⟩, ?_⟩ <;> simp [upd_address, h]

/-- The whole field walk never changes the soft-delete flag. -/
lemma updApply_is_deleted (today : PyDate) (db : List Employee) (id : Nat)
    (d : UpdateRequest) (e : Employee) :
    (updApply today db id d e).2.is_deleted = e.is_deleted := by
  unfold updApply
  rw [(upd_address_step _ _).2, (upd_status_step _ _).2,
      (upd_hire_date_step _ _ _).2, (upd_salary_step _ _).2,
      (upd_position_step _ _).2, (upd_department_step _ _).2,
      (upd_phone_step _ _).2, (upd_email_step _ _ _ _).2,
      (upd_name_step _ _).2]

/-- Error messages survive the remaining steps. -/
lemma mem_of_step {m : String} {acc acc' : UAcc}
    (h : ∃ ex, acc'.1 = acc.1 ++ ex) (hm : m ∈ acc.1) : m ∈ acc'.1 := by
  obtain ⟨ex, hex⟩ := h
  rw [hex]
  exact List.mem_append_left _ hm

/-- The characterization of the update handler after the row is found. -/
lemma update_employee_eq (today : PyDate) (db : List Employee) (id : Nat)
    (d : UpdateRequest) (e : Employee) (hf : findActive db id = some e) :
    update_employee today db id (some d) =
      (if (updApply today db id d e).1 = [] then
        (.ok (updApply today db id d e).2,
         updateFirst (activeWithId id) (fun _ => (updApply today db id d e).2) db)
       else
        (.validationError (updApply today db id d e).1, db)) := by
  unfold update_employee
  rw [hf]

/-! ## Claim theorems -/

/-- **C3** — For every non-deleted employee (whose `deleted_at` is clear, as
it is for every row that has never been soft-deleted or was last restored),
applying `soft_delete` and then `restore` returns the entity to
`is_deleted = false` and `status = "Active"` and leaves every other field
unchanged from its value before the `soft_delete`. -/
theorem soft_delete_restore_roundtrip (e : Employee) (now : Nat)
    (hdel : e.is_deleted = false) (hts : e.deleted_at = none) :
    (e.soft_delete now).restore = { e with status := "Active" } ∧
    ((e.soft_delete now).restore).is_deleted = false ∧
    ((e.soft_delete now).restore).status = "Active" := by
  refine ⟨?_, rfl, rfl⟩
  cases e
  simp_all [Employee.soft_delete, Employee.restore]

/-- Witness for C3 at the concrete row `empA`. -/
theorem soft_delete_restore_roundtrip_witness :
    (empA.soft_delete 7).restore = { empA with status := "Active" } ∧
    ((empA.soft_delete 7).restore).is_deleted = false ∧
    ((empA.soft_delete 7).restore).status = "Active" :=
  soft_delete_restore_roundtrip empA 7 (by decide) (by decide)

/-- **C10** — Whenever every non-deleted employee has status Active or
Inactive, the stats endpoint returns counts with
`total = active + inactive + deleted`: the total counts every row, while the
status counts cover only non-deleted rows and `deleted` the soft-deleted
ones. -/
theorem stats_counts_partition (db : List Employee)
    (h : ∀ e ∈ db, e.is_deleted = false →
      e.status = "Active" ∨ e.status = "Inactive") :
    (get_employee_stats db).total_employees =
      (get_employee_stats db).active_employees +
      (get_employee_stats db).inactive_employees +
      (get_employee_stats db).deleted_employees := by
  simp only [get_employee_stats]
  induction db with
  | nil => rfl
  | cons x xs ih =>
    have hx := h x (List.mem_cons_self x xs)
    have ih2 := ih (fun e he hd => h e (List.mem_cons_of_mem x he) hd)
    simp only [List.length_cons, List.countP_cons]
    cases hxd : x.is_deleted with
    | true => simp [hxd]; omega
    | false =>
      rcases hx hxd with h1 | h1 <;> simp [h1, hxd] <;> omega

/-- Witness for C10 on a mixed concrete store. -/
theorem stats_counts_partition_witness :
    (get_employee_stats [empA, { empB with status := "Inactive" },
        empA.soft_delete 9]).total_employees =
      (get_employee_stats [empA, { empB with status := "Inactive" },
          empA.soft_delete 9]).active_employees +
      (get_employee_stats [empA, { empB with status := "Inactive" },
          empA.soft_delete 9]).inactive_employees +
      (get_employee_stats [empA, { empB with status := "Inactive" },
          empA.soft_delete 9]).deleted_employees :=
  stats_counts_partition _ (by decide)

/-- **C5** — The upload endpoint does reject a bad extension (400) and an
oversized body (413), but it does NOT reject a file whose bytes are not a
decodable image: a corrupted `.png` is saved and its path committed on the
row with a 200 answer, even though the repository's own
`FileUploadHandler.validate_file` (file_utils.py, unused by this route)
rejects exactly that file with "Invalid image file".  This contradicts the
claimed behaviour. -/
theorem upload_stores_undecodable_image :
    upload_endpoint [empA] 1 (some ⟨"pic.png", 100, false⟩) "20250101_000000" =
      (.ok ⟨"pic.png", 100, false⟩ "profiles/employee_1_20250101_000000.png",
       [{ empA with
            profile_picture_path := some "profiles/employee_1_20250101_000000.png" }]) ∧
    uploadStatusCode
      (upload_endpoint [empA] 1 (some ⟨"pic.png", 100, false⟩)
        "20250101_000000").1 = 200 ∧
    FileUploadHandler.validate_file (some ⟨"pic.png", 100, false⟩) =
      ["Invalid image file"] ∧
    (upload_endpoint [empA] 1 (some ⟨"doc.txt", 100, true⟩) "t").1 = .badType ∧
    uploadStatusCode
      (upload_endpoint [empA] 1 (some ⟨"doc.txt", 100, true⟩) "t").1 = 400 ∧
    (upload_endpoint [empA] 1 (some ⟨"big.png", 3000000, true⟩) "t").1 = .tooLarge ∧
    uploadStatusCode
      (upload_endpoint [empA] 1 (some ⟨"big.png", 3000000, true⟩) "t").1 = 413 := by
  decide

/-- The delete handler when no non-deleted row matches. -/
lemma delete_employee_none (db : List Employee) (id : Nat) (permanent : Bool)
    (now : Nat) (hf : findActive db id = none) :
    delete_employee db id permanent now = (.notFound, db) := by
  unfold delete_employee
  rw [hf]

/-- The delete handler once the row is found. -/
lemma delete_employee_some (db : List Employee) (id : Nat) (permanent : Bool)
    (now : Nat) (e : Employee) (hf : findActive db id = some e) :
    delete_employee db id permanent now =
      (if permanent then
        (.deletedPermanently, removeFirst (activeWithId id) db)
       else
        (.deletedSoftly,
         updateFirst (activeWithId id) (fun x => x.soft_delete now) db)) := by
  unfold delete_employee
  rw [hf]

/-- The restore handler when no soft-deleted row matches. -/
lemma restore_employee_none (db : List Employee) (id : Nat)
    (hf : db.find? (deletedWithId id) = none) :
    restore_employee db id = (.notFound, db) := by
  unfold restore_employee
  rw [hf]

/-- The restore handler once the soft-deleted row is found. -/
lemma restore_employee_some (db : List Employee) (id : Nat) (e : Employee)
    (hf : db.find? (deletedWithId id) = some e) :
    restore_employee db id =
      (match db.find?
          (fun x => x.email == e.email && x.id != id && !x.is_deleted) with
       | some _ => (.conflict, db)
       | none =>
          (.ok e.restore,
           updateFirst (deletedWithId id) Employee.restore db)) := by
  unfold restore_employee
  rw [hf]

/-- The update handler when no non-deleted row matches. -/
lemma update_employee_none (today : PyDate) (db : List Employee) (id : Nat)
    (req : Option UpdateRequest) (hf : findActive db id = none) :
    update_employee today db id req = (.notFound, db) := by
  unfold update_employee
  rw [hf]

/-- The update handler when the body is missing. -/
lemma update_employee_nobody (today : PyDate) (db : List Employee) (id : Nat)
    (e : Employee) (hf : findActive db id = some e) :
    update_employee today db id none = (.badRequest, db) := by
  unfold update_employee
  rw [hf]

/-- Membership in `updateFirst` when the first match is known. -/
lemma mem_updateFirst_find? {p : α → Bool} {f : α → α} {l : List α} {e x : α}
    (hf : l.find? p = some e) (hx : x ∈ updateFirst p f l) : x ∈ l ∨ x = f e := by
  induction l with
  | nil => simp at hf
  | cons a as ih =>
    by_cases hp : p a = true
    · rw [List.find?_cons_of_pos _ hp] at hf
      cases hf
      simp only [updateFirst, if_pos hp] at hx
      rcases List.mem_cons.mp hx with h | h
      · exact Or.inr h
      · exact Or.inl (List.mem_cons_of_mem _ h)
    · rw [List.find?_cons_of_neg _ hp] at hf
      simp only [updateFirst, if_neg hp] at hx
      rcases List.mem_cons.mp hx with h | h
      · exact Or.inl (by simp [h])
      · rcases ih hf h with h2 | h2
        · exact Or.inl (List.mem_cons_of_mem a h2)
        · exact Or.inr h2

/-- The store after `create_employee`: unchanged, or extended with one fresh
non-deleted row. -/
lemma create_employee_db (db : List Employee) (req : Option CreateRequest)
    (newId now : Nat) :
    (create_employee db req newId now).2 = db ∨
    ∃ e, (create_employee db req newId now).2 = db ++ [e] ∧
      e.is_deleted = false := by
  unfold create_employee
  repeat' split
  all_goals first
    | exact Or.inl rfl
    | exact Or.inr ⟨_, rfl, rfl⟩

/-- **C1** — (i) whenever the update of an existing non-deleted employee
answers with a validation error, the persisted store is unchanged, so no
field of the request is applied; (ii) a request carrying the invalid salary
"-5" together with the valid name "John" is rejected with exactly the salary
error, the prior name staying in storage; (iii) a request with two invalid
fields reports both collected errors, not just the first. -/
theorem update_all_or_nothing_collects_errors :
    (∀ (today : PyDate) (db : List Employee) (id : Nat)
        (req : Option UpdateRequest) (errs : List String),
        (update_employee today db id req).1 = .validationError errs →
        (update_employee today db id req).2 = db) ∧
    (∀ (today : PyDate) (db : List Employee) (id : Nat) (e : Employee),
        findActive db id = some e →
        update_employee today db id
            (some { emptyUpdate with name := some "John", salary := some (.str "-5") }) =
          (.validationError ["Salary: Salary must be greater than 0"], db)) ∧
    (∀ (today : PyDate) (db : List Employee) (id : Nat) (e : Employee),
        findActive db id = some e →
        update_employee today db id
            (some { emptyUpdate with name := some "J", salary := some (.str "-5") }) =
          (.validationError
            ["Name: Name must be at least 2 characters",
             "Salary: Salary must be greater than 0"], db)) := by
  refine ⟨?_, ?_, ?_⟩
  · intro today db id req errs h
    cases hf : findActive db id with
    | none =>
      rw [update_employee_none today db id req hf] at h
      simp at h
    | some e =>
      cases req with
      | none =>
        rw [update_employee_nobody today db id e hf] at h
        simp at h
      | some d =>
        rw [update_employee_eq today db id d e hf] at h ⊢
        by_cases hacc : (updApply today db id d e).1 = []
        · rw [if_pos hacc] at h
          simp at h
        · rw [if_neg hacc]
  · intro today db id e hf
    rw [update_employee_eq today db id _ e hf]
    rfl
  · intro today db id e hf
    rw [update_employee_eq today db id _ e hf]
    rfl

/-- Witness for C1 on a one-row store. -/
theorem update_all_or_nothing_collects_errors_witness :
    (update_employee td [empA] 1
        (some { emptyUpdate with salary := some (.str "abc") })).2 = [empA] ∧
    update_employee td [empA] 1
        (some { emptyUpdate with name := some "John", salary := some (.str "-5") }) =
      (.validationError ["Salary: Salary must be greater than 0"], [empA]) ∧
    update_employee td [empA] 1
        (some { emptyUpdate with name := some "J", salary := some (.str "-5") }) =
      (.validationError
        ["Name: Name must be at least 2 characters",
         "Salary: Salary must be greater than 0"], [empA]) :=
  ⟨update_all_or_nothing_collects_errors.1 td [empA] 1 _
      ["Salary: Invalid salary format"] (by decide),
   update_all_or_nothing_collects_errors.2.1 td [empA] 1 empA (by decide),
   update_all_or_nothing_collects_errors.2.2 td [empA] 1 empA (by decide)⟩

/-- The data-model invariant of C4: every soft-deleted row is Inactive. -/
def DelInactive (db : List Employee) : Prop :=
  ∀ e ∈ db, e.is_deleted = true → e.status = "Inactive"

/-- **C4** — the invariant "is_deleted implies Inactive" is preserved by all
four mutating operations: create (new rows are non-deleted), update (it only
touches non-deleted rows and never sets the flag), delete (soft delete also
forces Inactive, permanent delete removes the row) and restore (it clears
the flag). -/
theorem deleted_implies_inactive_invariant (db : List Employee)
    (hinv : DelInactive db) :
    (∀ req newId now, DelInactive (create_employee db req newId now).2) ∧
    (∀ today id req, DelInactive (update_employee today db id req).2) ∧
    (∀ id permanent now,
      DelInactive (delete_employee db id permanent now).2) ∧
    (∀ id, DelInactive (restore_employee db id).2) := by
  refine ⟨?_, ?_, ?_, ?_⟩
  · intro req newId now x hx hdel
    rcases create_employee_db db req newId now with h | ⟨e2, h, he2⟩
    · rw [h] at hx
      exact hinv x hx hdel
    · rw [h] at hx
      rcases List.mem_append.mp hx with h2 | h2
      · exact hinv x h2 hdel
      · rw [List.mem_singleton.mp h2] at hdel
        rw [he2] at hdel
        exact absurd hdel (by simp)
  · intro today id req x hx hdel
    cases hf : findActive db id with
    | none =>
      rw [update_employee_none today db id req hf] at hx
      exact hinv x hx hdel
    | some e =>
      cases req with
      | none =>
        rw [update_employee_nobody today db id e hf] at hx
        exact hinv x hx hdel
      | some d =>
        rw [update_employee_eq today db id d e hf] at hx
        by_cases hacc : (updApply today db id d e).1 = []
        · rw [if_pos hacc] at hx
          have hx2 : x ∈ updateFirst (activeWithId id)
              (fun _ => (updApply today db id d e).2) db := hx
          rcases mem_updateFirst hx2 with h | ⟨y, hy, hpy, hxy⟩
          · exact hinv x h hdel
          · have he : e.is_deleted = false := by
              have hps := List.find?_some hf
              simp [activeWithId] at hps
              exact hps.1
            rw [hxy, updApply_is_deleted, he] at hdel
            exact absurd hdel (by simp)
        · rw [if_neg hacc] at hx
          exact hinv x hx hdel
  · intro id permanent now x hx hdel
    cases hf : findActive db id with
    | none =>
      rw [delete_employee_none db id permanent now hf] at hx
      exact hinv x hx hdel
    | some e =>
      rw [delete_employee_some db id permanent now e hf] at hx
      cases permanent with
      | true => exact hinv x (mem_removeFirst hx) hdel
      | false =>
        have hx2 : x ∈ updateFirst (activeWithId id)
            (fun y => y.soft_delete now) db := hx
        rcases mem_updateFirst hx2 with h | ⟨y, hy, hpy, hxy⟩
        · exact hinv x h hdel
        · rw [hxy]
          rfl
  · intro id x hx hdel
    cases hf : db.find? (deletedWithId id) with
    | none =>
      rw [restore_employee_none db id hf] at hx
      exact hinv x hx hdel
    | some e =>
      rw [restore_employee_some db id e hf] at hx
      cases hc : db.find?
          (fun x => x.email == e.email && x.id != id && !x.is_deleted) with
      | some y =>
        rw [hc] at hx
        exact hinv x hx hdel
      | none =>
        rw [hc] at hx
        have hx2 : x ∈ updateFirst (deletedWithId id) Employee.restore db := hx
        rcases mem_updateFirst hx2 with h | ⟨y, hy, hpy, hxy⟩
        · exact hinv x h hdel
        · rw [hxy] at hdel
          exact absurd hdel (by simp [Employee.restore])

/-- Witness for C4 on a concrete store satisfying the invariant. -/
theorem deleted_implies_inactive_invariant_witness :
    DelInactive (create_employee [empA, empB.soft_delete 3]
      (some { name := some "Carl", email := some "carl@example.com",
              department := some "IT", position := some "Dev",
              salary := some 500, hire_date := some "2021-03-04" }) 5 9).2 ∧
    DelInactive (update_employee td [empA, empB.soft_delete 3] 1
      (some { emptyUpdate with status := some "Inactive" })).2 ∧
    DelInactive (delete_employee [empA, empB.soft_delete 3] 1 false 9).2 ∧
    DelInactive (restore_employee [empA, empB.soft_delete 3] 2).2 := by
  have hd0 : ∀ e ∈ [empA, empB.soft_delete 3],
      e.is_deleted = true → e.status = "Inactive" := by decide
  have h := deleted_implies_inactive_invariant [empA, empB.soft_delete 3] hd0
  exact ⟨h.1 _ 5 9, h.2.1 td 1 _, h.2.2.1 1 false 9, h.2.2.2 2⟩

/-- **C2** — the restore endpoint: (i) if no row with the requested id is
soft-deleted the answer is NotFound; (ii) if another non-deleted row holds
the same email the answer is the Conflict error and the store (hence the
target row) is unchanged; (iii) otherwise the row is restored:
`is_deleted = false`, `deleted_at` cleared, `status = "Active"`, and no
other row is touched. -/
theorem restore_state_machine (db : List Employee) (id : Nat) :
    ((∀ x ∈ db, ¬(x.id = id ∧ x.is_deleted = true)) →
      restore_employee db id = (.notFound, db)) ∧
    (∀ e, db.find? (deletedWithId id) = some e →
      (∃ x ∈ db, x.email = e.email ∧ x.id ≠ id ∧ x.is_deleted = false) →
      restore_employee db id = (.conflict, db)) ∧
    (∀ e, db.find? (deletedWithId id) = some e →
      (∀ x ∈ db, ¬(x.email = e.email ∧ x.id ≠ id ∧ x.is_deleted = false)) →
      (restore_employee db id).1 = .ok e.restore ∧
      e.restore ∈ (restore_employee db id).2 ∧
      (e.restore).is_deleted = false ∧
      (e.restore).deleted_at = none ∧
      (e.restore).status = "Active" ∧
      (∀ x ∈ (restore_employee db id).2, x ∈ db ∨ x = e.restore)) := by
  refine ⟨?_, ?_, ?_⟩
  · intro h
    have hf : db.find? (deletedWithId id) = none := by
      rw [List.find?_eq_none]
      intro x hx hpx
      apply h x hx
      simpa [deletedWithId] using hpx
    exact restore_employee_none db id hf
  · intro e hf hex
    have hs : (db.find?
        (fun x => x.email == e.email && x.id != id && !x.is_deleted)).isSome := by
      rw [List.find?_isSome]
      obtain ⟨x, hx, h1, h2, h3⟩ := hex
      exact ⟨x, hx, by simp [h1, h3, bne_iff_ne, h2]⟩
    obtain ⟨y, hy⟩ := Option.isSome_iff_exists.mp hs
    rw [restore_employee_some db id e hf, hy]
  · intro e hf hno
    have hc : db.find?
        (fun x => x.email == e.email && x.id != id && !x.is_deleted) = none := by
      rw [List.find?_eq_none]
      intro x hx hpx
      apply hno x hx
      simp only [Bool.and_eq_true, beq_iff_eq, bne_iff_ne, Bool.not_eq_true'] at hpx
      exact ⟨hpx.1.1, hpx.1.2, hpx.2⟩
    have hres : restore_employee db id =
        (.ok e.restore, updateFirst (deletedWithId id) Employee.restore db) := by
      rw [restore_employee_some db id e hf, hc]
    rw [hres]
    refine ⟨rfl, updateFirst_of_find? hf, rfl, rfl, rfl, ?_⟩
    intro x hx
    exact mem_updateFirst_find? hf hx

/-- Witness for C2: a NotFound call, a Conflict call on a duplicate email,
and a successful restore. -/
theorem restore_state_machine_witness :
    restore_employee [empA, empB] 3 = (.notFound, [empA, empB]) ∧
    restore_employee [empA.soft_delete 7, { empB with email := "alice@example.com" }] 1 =
      (.conflict, [empA.soft_delete 7, { empB with email := "alice@example.com" }]) ∧
    ((restore_employee [empA.soft_delete 7, empB] 1).1 =
        .ok ((empA.soft_delete 7).restore) ∧
      (empA.soft_delete 7).restore ∈ (restore_employee [empA.soft_delete 7, empB] 1).2 ∧
      ((empA.soft_delete 7).restore).is_deleted = false ∧
      ((empA.soft_delete 7).restore).deleted_at = none ∧
      ((empA.soft_delete 7).restore).status = "Active" ∧
      (∀ x ∈ (restore_employee [empA.soft_delete 7, empB] 1).2,
        x ∈ [empA.soft_delete 7, empB] ∨ x = (empA.soft_delete 7).restore)) :=
  ⟨(restore_state_machine [empA, empB] 3).1 (by decide),
   (restore_state_machine [empA.soft_delete 7,
      { empB with email := "alice@example.com" }] 1).2.1
     (empA.soft_delete 7) (by decide) (by decide),
   (restore_state_machine [empA.soft_delete 7, empB] 1).2.2
     (empA.soft_delete 7) (by decide) (by decide)⟩

/-- The per_page clamp the claim describes: to the range [1, 100]. -/
def specClampPerPage (r : Int) : Int := max 1 (min r 100)

/-- **C6 counterexample** — a list request with `per_page = -5` gets an
effective page size of 20 (the route only caps above at 100, and the
paginator replaces values below 1 by its own default of 20), not the value 1
that clamping to [1, 100] would give. -/
theorem per_page_not_clamped_below :
    (get_employees []
      { page := none, per_page := some (-5), search := "", department := "",
        status := "", include_deleted := false }).per_page = 20 ∧
    specClampPerPage (-5) = 1 ∧
    ¬((get_employees []
      { page := none, per_page := some (-5), search := "", department := "",
        status := "", include_deleted := false }).per_page =
        specClampPerPage (-5)) := by
  decide

/-- The route-level page size is at least 1 after the paginator fallback. -/
lemma one_le_effectivePerPage (q : ListParams) :
    1 ≤ (effectivePerPage q).toNat := by
  simp only [effectivePerPage]
  split <;> omega

/-- **C6 amended** — the effective page size is `min(per_page, 100)` for any
requested value ≥ 1 and defaults to 10 when absent (a request below 1 is not
clamped to 1: the paginator substitutes its default instead, see the
counterexample); a page number beyond the last page yields an empty item
list rather than an error. -/
theorem pagination_clamp_and_overflow :
    (∀ (db : List Employee) (q : ListParams) (r : Int),
        q.per_page = some r → 1 ≤ r →
        (get_employees db q).per_page = min r 100) ∧
    (∀ (db : List Employee) (q : ListParams),
        q.per_page = none → (get_employees db q).per_page = 10) ∧
    (∀ (db : List Employee) (q : ListParams) (p : Int),
        q.page = some p → ((get_employees db q).pages : Int) < p →
        (get_employees db q).employees = []) := by
  refine ⟨?_, ?_, ?_⟩
  · intro db q r hq hr
    simp only [get_employees, effectivePerPage, hq, Option.getD_some]
    split
    · omega
    · rfl
  · intro db q hq
    simp only [get_employees, effectivePerPage, hq, Option.getD_none]
    rfl
  · intro db q p hp hlt
    simp only [get_employees] at hlt ⊢
    set ordered := sortByName (filteredEmployees db q) with hord
    set pp := (effectivePerPage q).toNat with hppdef
    have hpp1 : 1 ≤ pp := one_le_effectivePerPage q
    set total := ordered.length with htot
    set k := (total + pp - 1) / pp with hk
    have hp1 : 1 ≤ p := by
      have : (0 : Int) ≤ (k : Int) := Int.natCast_nonneg k
      omega
    have hpN : (effectivePage q).toNat = p.toNat := by
      simp only [effectivePage, hp, Option.getD_some]
      split <;> omega
    have hkp : k + 1 ≤ p.toNat := by omega
    have hceil : total ≤ k * pp := by
      have h1 := Nat.div_add_mod (total + pp - 1) pp
      have h2 : (total + pp - 1) % pp < pp := Nat.mod_lt _ (by omega)
      rw [Nat.mul_comm]
      rw [← hk] at h1
      generalize hT : pp * k = T at h1
      omega
    have hbig : total ≤ (p.toNat - 1) * pp := by
      calc total ≤ k * pp := hceil
        _ ≤ (p.toNat - 1) * pp := Nat.mul_le_mul_right pp (by omega)
    rw [hpN]
    rw [List.drop_eq_nil_of_le (by omega : ordered.length ≤ (p.toNat - 1) * pp)]
    exact List.take_nil

/-- Witness for the amended C6. -/
theorem pagination_clamp_and_overflow_witness :
    (get_employees [empA, empB]
      { page := some 1, per_page := some 1, search := "", department := "",
        status := "", include_deleted := false }).per_page = min 1 100 ∧
    (get_employees [empA]
      { page := none, per_page := none, search := "", department := "",
        status := "", include_deleted := false }).per_page = 10 ∧
    (get_employees [empA, empB]
      { page := some 5, per_page := some 1, search := "", department := "",
        status := "", include_deleted := false }).employees = [] :=
  ⟨pagination_clamp_and_overflow.1 [empA, empB] _ 1 rfl (by decide),
   pagination_clamp_and_overflow.2.1 [empA] _ rfl,
   pagination_clamp_and_overflow.2.2 [empA, empB] _ 5 rfl (by decide)⟩

/-- The email step appends the duplicate-email message when the supplied
email is well-formed but held by another row. -/
lemma upd_email_conflict (db : List Employee) (id : Nat) (s : String)
    (acc : UAcc) (hv : validate_email (pyLower (pyStrip s)) = true)
    (hdup : ∃ x ∈ db, x.email = pyLower (pyStrip s) ∧ x.id ≠ id) :
    (upd_email db id (some s) acc).1 =
      acc.1 ++ ["Email: Employee with this email already exists"] := by
  have hs : (db.find?
      (fun x => x.email == pyLower (pyStrip s) && x.id != id)).isSome := by
    rw [List.find?_isSome]
    obtain ⟨x, hx, h1, h2⟩ := hdup
    exact ⟨x, hx, by simp [h1, bne_iff_ne, h2]⟩
  obtain ⟨y, hy⟩ := Option.isSome_iff_exists.mp hs
  simp [upd_email, hv, hy]

/-- **C7 amended** — when an update on an existing non-deleted employee
supplies an email that passes format validation but is already held by a
different employee row, the handler answers with HTTP 400 and the
duplicate-email message in the collected validation errors (the documented
409 never occurs in this handler) and does not apply the update. -/
theorem update_email_conflict_rejected :
    ∀ (today : PyDate) (db : List Employee) (id : Nat) (d : UpdateRequest)
      (e : Employee) (s : String),
      findActive db id = some e →
      d.email = some s →
      validate_email (pyLower (pyStrip s)) = true →
      (∃ x ∈ db, x.email = pyLower (pyStrip s) ∧ x.id ≠ id) →
      ∃ errs,
        update_employee today db id (some d) = (.validationError errs, db) ∧
        "Email: Employee with this email already exists" ∈ errs ∧
        updateStatusCode (update_employee today db id (some d)).1 = 400 := by
  intro today db id d e s hf he hv hdup
  have hmsg1 : "Email: Employee with this email already exists" ∈
      (upd_email db id d.email (upd_name d.name ([], e))).1 := by
    rw [he, upd_email_conflict db id s (upd_name d.name ([], e)) hv hdup]
    exact List.mem_append_right _ (by simp)
  have hmsg : "Email: Employee with this email already exists" ∈
      (updApply today db id d e).1 := by
    unfold updApply
    exact mem_of_step (upd_address_step _ _).1
      (mem_of_step (upd_status_step _ _).1
        (mem_of_step (upd_hire_date_step _ _ _).1
          (mem_of_step (upd_salary_step _ _).1
            (mem_of_step (upd_position_step _ _).1
              (mem_of_step (upd_department_step _ _).1
                (mem_of_step (upd_phone_step _ _).1 hmsg1))))))
  have hne : ¬((updApply today db id d e).1 = []) := by
    intro h0
    rw [h0] at hmsg
    exact absurd hmsg (List.not_mem_nil _)
  rw [update_employee_eq today db id d e hf, if_neg hne]
  exact ⟨(updApply today db id d e).1, rfl, hmsg, rfl⟩

/-- Witness for the amended C7: employee 1 takes employee 2's email. -/
theorem update_email_conflict_rejected_witness :
    ∃ errs,
      update_employee td [empA, empB] 1
          (some { emptyUpdate with email := some "bob@example.com" }) =
        (.validationError errs, [empA, empB]) ∧
      "Email: Employee with this email already exists" ∈ errs ∧
      updateStatusCode (update_employee td [empA, empB] 1
        (some { emptyUpdate with email := some "bob@example.com" })).1 = 400 :=
  update_email_conflict_rejected td [empA, empB] 1 _ empA "bob@example.com"
    (by decide) rfl (by decide) (by decide)

/-- **C7 counterexample** — the same request answered as the claim describes
it, except that the status is 400, not 409: the conflict is surfaced inside
the 400 validation-error list. -/
theorem update_email_conflict_status_counterexample :
    validate_email "bob@example.com" = true ∧
    update_employee td [empA, empB] 1
        (some { emptyUpdate with email := some "bob@example.com" }) =
      (.validationError ["Email: Employee with this email already exists"],
       [empA, empB]) ∧
    updateStatusCode (update_employee td [empA, empB] 1
      (some { emptyUpdate with email := some "bob@example.com" })).1 = 400 ∧
    (400 : Nat) ≠ 409 := by
  decide

/-- `find?` by id fails on a list without the id. -/
lemma find?_id_none {xs : List Employee} {id : Nat}
    (h : ∀ y ∈ xs, y.id ≠ id) :
    xs.find? (fun x => x.id == id) = none :=
  List.find?_eq_none.2 (fun y hy hpy => h y hy (by simpa using hpy))

/-- `find?` by the active-row predicate fails on a list without the id. -/
lemma find?_active_none {xs : List Employee} {id : Nat}
    (h : ∀ y ∈ xs, y.id ≠ id) :
    xs.find? (activeWithId id) = none :=
  List.find?_eq_none.2 (fun y hy hpy => h y hy (by
    simp [activeWithId] at hpy
    exact hpy.2))

/-- After soft-deleting the (unique) active row with a given id, the row is
found by a plain id lookup as its soft-deleted version, no active row with
the id remains, and the soft-deleted row is a member of the store. -/
lemma soft_delete_key {db : List Employee} {id : Nat} {e : Employee}
    (now : Nat) (hnd : (db.map (fun x => x.id)).Nodup)
    (hf : db.find? (activeWithId id) = some e) :
    ((updateFirst (activeWithId id) (fun x => x.soft_delete now) db).find?
        (fun x => x.id == id) = some (e.soft_delete now)) ∧
    ((updateFirst (activeWithId id) (fun x => x.soft_delete now) db).find?
        (activeWithId id) = none) ∧
    (e.soft_delete now) ∈
      updateFirst (activeWithId id) (fun x => x.soft_delete now) db := by
  induction db with
  | nil => simp at hf
  | cons a as ih =>
    rw [List.map_cons, List.nodup_cons] at hnd
    obtain ⟨hna, hnas⟩ := hnd
    by_cases hp : activeWithId id a = true
    · rw [List.find?_cons_of_pos _ hp] at hf
      injection hf with hae
      subst hae
      have haid : a.id = id := by
        simp [activeWithId] at hp
        exact hp.2
      have hrest : ∀ y ∈ as, y.id ≠ id := fun y hy hyid =>
        hna (List.mem_map.mpr ⟨y, hy, by rw [hyid, haid]⟩)
      simp only [updateFirst, if_pos hp]
      refine ⟨?_, ?_, List.mem_cons_self _ _⟩
      · rw [List.find?_cons_of_pos _ (by simp [Employee.soft_delete, haid])]
      · rw [List.find?_cons_of_neg _ (by simp [activeWithId, Employee.soft_delete])]
        exact find?_active_none hrest
    · rw [List.find?_cons_of_neg _ hp] at hf
      have haid : a.id ≠ id := by
        intro h
        have hemem := List.mem_of_find?_eq_some hf
        have hepred := List.find?_some hf
        have heid : e.id = id := by
          simp [activeWithId] at hepred
          exact hepred.2
        exact hna (List.mem_map.mpr ⟨e, hemem, by rw [heid, h]⟩)
      have ihr := ih hnas hf
      simp only [updateFirst, if_neg hp]
      refine ⟨?_, ?_, List.mem_cons_of_mem a ihr.2.2⟩
      · rw [List.find?_cons_of_neg _ (by simp [haid])]
        exact ihr.1
      · rw [List.find?_cons_of_neg _ hp]
        exact ihr.2.1

/-- Membership through one optional filter stage. -/
lemma mem_of_mem_iffilter {c : Prop} [Decidable c] {p : α → Bool}
    {l : List α} {x : α} (h : x ∈ if c then l.filter p else l) : x ∈ l := by
  split at h
  · exact (List.mem_filter.mp h).1
  · exact h

/-- Without `include_deleted`, everything the filter pipeline returns is a
non-deleted row. -/
lemma mem_filtered_not_deleted {db : List Employee} {q : ListParams}
    {x : Employee} (hq : q.include_deleted = false)
    (hx : x ∈ filteredEmployees db q) : x.is_deleted = false := by
  simp only [filteredEmployees, hq] at hx
  have h1 := mem_of_mem_iffilter hx
  have h2 := mem_of_mem_iffilter h1
  have h3 := mem_of_mem_iffilter h2
  rw [if_neg (by simp)] at h3
  simpa using (List.mem_filter.mp h3).2

/-- **C8** — soft-deleting an existing non-deleted employee (ids unique, as
the primary key guarantees) keeps the row queryable: the id lookup with
`include_deleted = true` returns the soft-deleted row, the default lookup
returns nothing, the row is absent from every listing with
`include_deleted = false`, and some listing page with
`include_deleted = true` shows it. -/
theorem soft_delete_visibility :
    ∀ (db : List Employee) (id : Nat) (e : Employee) (now : Nat),
      (db.map (fun x => x.id)).Nodup →
      findActive db id = some e →
      (delete_employee db id false now).1 = .deletedSoftly ∧
      get_employee (delete_employee db id false now).2 id true =
        some (e.soft_delete now) ∧
      get_employee (delete_employee db id false now).2 id false = none ∧
      (∀ q : ListParams, q.include_deleted = false →
        (e.soft_delete now) ∉
          (get_employees (delete_employee db id false now).2 q).employees) ∧
      (∃ q : ListParams, q.include_deleted = true ∧
        (e.soft_delete now) ∈
          (get_employees (delete_employee db id false now).2 q).employees) := by
  intro db id e now hnd hf
  have hdel : delete_employee db id false now =
      (.deletedSoftly,
       updateFirst (activeWithId id) (fun x => x.soft_delete now) db) := by
    rw [delete_employee_some db id false now e hf]
    rfl
  rw [hdel]
  have key := soft_delete_key now hnd hf
  refine ⟨rfl, ?_, ?_, ?_, ?_⟩
  · simpa [get_employee] using key.1
  · simpa [get_employee, findActive] using key.2.1
  · intro q hq hmem
    have h1 : (e.soft_delete now) ∈ sortByName (filteredEmployees
        (updateFirst (activeWithId id) (fun x => x.soft_delete now) db) q) :=
      List.mem_of_mem_drop (List.mem_of_mem_take hmem)
    have h2 := mem_sortByName.1 h1
    have h3 := mem_filtered_not_deleted hq h2
    simp [Employee.soft_delete] at h3
  · have hmem2 := key.2.2
    have hmem3 : (e.soft_delete now) ∈ sortByName
        (updateFirst (activeWithId id) (fun x => x.soft_delete now) db) :=
      mem_sortByName.2 hmem2
    obtain ⟨n, hn⟩ := List.mem_iff_get.1 hmem3
    refine ⟨{ page := some ((n.1 : Int) + 1), per_page := some 1, search := "",
              department := "", status := "", include_deleted := true },
            rfl, ?_⟩
    simp only [get_employees]
    have hfe : filteredEmployees
        (updateFirst (activeWithId id) (fun x => x.soft_delete now) db)
        { page := some ((n.1 : Int) + 1), per_page := some 1, search := "",
          department := "", status := "", include_deleted := true } =
        updateFirst (activeWithId id) (fun x => x.soft_delete now) db := rfl
    rw [hfe]
    have hpage : (effectivePage
        { page := some ((n.1 : Int) + 1), per_page := some 1, search := "",
          department := "", status := "", include_deleted := true }).toNat =
        n.1 + 1 := by
      simp only [effectivePage, Option.getD_some]
      split <;> omega
    have hpp : (effectivePerPage
        { page := some ((n.1 : Int) + 1), per_page := some 1, search := "",
          department := "", status := "", include_deleted := true }).toNat =
        1 := rfl
    rw [hpage, hpp]
    simp only [Nat.add_sub_cancel, Nat.mul_one]
    rw [take_one_drop _ n.1 n.2]
    simp only [List.mem_singleton]
    rw [← hn]

/-- Witness for C8 on a two-row store. -/
theorem soft_delete_visibility_witness :
    (delete_employee [empA, empB] 1 false 9).1 = .deletedSoftly ∧
    get_employee (delete_employee [empA, empB] 1 false 9).2 1 true =
      some (empA.soft_delete 9) ∧
    get_employee (delete_employee [empA, empB] 1 false 9).2 1 false = none ∧
    (∀ q : ListParams, q.include_deleted = false →
      (empA.soft_delete 9) ∉
        (get_employees (delete_employee [empA, empB] 1 false 9).2 q).employees) ∧
    (∃ q : ListParams, q.include_deleted = true ∧
      (empA.soft_delete 9) ∈
        (get_employees (delete_employee [empA, empB] 1 false 9).2 q).employees) :=
  soft_delete_visibility [empA, empB] 1 empA 9 (by decide) (by decide)

/-- **C9 amended** — `validate_salary` accepts a numeric value, or a string
from which currency symbols and commas are stripped, exactly when the
stripped value parses as a finite decimal `q` with `0 < q ≤ 9,999,999.99`;
the accepted decimal value is `q` — which Python then converts to a binary
float, so the returned number is not an exact base-10 fixed-point value in
general (see the counterexample at "0.1"). -/
theorem validate_salary_accepts_exactly :
    (∀ (s : String) (q : ℚ),
        validate_salary (.str s) = .ok q ↔
          (parsePyDec (stripSalary s) = some (.fin q) ∧
           0 < q ∧ q ≤ salaryCap)) ∧
    (∀ (n : Int) (q : ℚ),
        validate_salary (.int n) = .ok q ↔
          (q = (n : ℚ) ∧ 0 < (n : ℚ) ∧ (n : ℚ) ≤ salaryCap)) := by
  constructor
  · intro s q
    constructor
    · intro h
      by_cases hs : s = ""
      · rw [hs] at h
        simp [validate_salary] at h
      · simp only [validate_salary, if_neg hs] at h
        by_cases ht : stripSalary s = ""
        · rw [if_pos ht] at h
          exact absurd h (by simp)
        · rw [if_neg ht] at h
          cases hp : parsePyDec (stripSalary s) with
          | none =>
            rw [hp] at h
            exact absurd h (by simp)
          | some pd =>
            rw [hp] at h
            cases pd with
            | nan => exact absurd h (by simp)
            | pinf => exact absurd h (by simp)
            | ninf => exact absurd h (by simp)
            | fin r =>
              by_cases h1 : r ≤ 0
              · simp only [salaryRange, if_pos h1] at h
                exact absurd h (by simp)
              · by_cases h2 : r > salaryCap
                · simp only [salaryRange, if_neg h1, if_pos h2] at h
                  exact absurd h (by simp)
                · simp only [salaryRange, if_neg h1, if_neg h2] at h
                  injection h with hqq
                  subst hqq
                  exact ⟨rfl, not_le.mp h1, not_lt.mp h2⟩
    · rintro ⟨hp, h0, hcap⟩
      have hpe : parsePyDec "" = none := by decide
      have hts : stripSalary s ≠ "" := by
        intro h0t
        rw [h0t, hpe] at hp
        exact absurd hp (by simp)
      have hs : s ≠ "" := by
        intro h0s
        apply hts
        rw [h0s]
        decide
      simp only [validate_salary, if_neg hs, if_neg hts]
      rw [hp]
      simp only [salaryRange, if_neg (not_le.mpr h0), if_neg (not_lt.mpr hcap)]
  · intro n q
    constructor
    · intro h
      by_cases h1 : (n : ℚ) ≤ 0
      · simp only [validate_salary, salaryRange, if_pos h1] at h
        exact absurd h (by simp)
      · by_cases h2 : (n : ℚ) > salaryCap
        · simp only [validate_salary, salaryRange, if_neg h1, if_pos h2] at h
          exact absurd h (by simp)
        · simp only [validate_salary, salaryRange, if_neg h1, if_neg h2] at h
          injection h with hqq
          exact ⟨hqq.symm, not_le.mp h1, not_lt.mp h2⟩
    · rintro ⟨rfl, h0, hcap⟩
      simp only [validate_salary, salaryRange, if_neg (not_le.mpr h0),
        if_neg (not_lt.mpr hcap)]

/-- Witness for the amended C9: a currency string and an integer. -/
theorem validate_salary_accepts_exactly_witness :
    validate_salary (.str "$1,234.50") = .ok (Rat.divInt 2469 2) ∧
    validate_salary (.int 50) = .ok 50 :=
  ⟨(validate_salary_accepts_exactly.1 "$1,234.50" (Rat.divInt 2469 2)).mpr
      ⟨by decide, by decide, by decide⟩,
   (validate_salary_accepts_exactly.2 50 50).mpr
      ⟨by decide, by decide, by decide⟩⟩

/-- **C9 counterexample** — the validator accepts "0.1" with the exact
decimal value 1/10, but every IEEE-754 binary float is a dyadic rational
`m / 2 ^ k` and 1/10 is not dyadic, so the float the Python function
returns cannot be the exact base-10 value: the claimed "fixed-point number
(exact base-10 representation)" is false at this input. -/
theorem salary_returned_as_float_not_exact :
    validate_salary (.str "0.1") = .ok ((1 : ℚ) / 10) ∧
    ¬ ∃ (m : ℤ) (k : ℕ), (1 : ℚ) / 10 = (m : ℚ) / 2 ^ k := by
  constructor
  · have h : validate_salary (.str "0.1") = .ok (Rat.divInt 1 10) := by decide
    rw [h]
    norm_num [Rat.divInt_eq_div]
  · rintro ⟨m, k, hmk⟩
    have h2k : ((2 : ℚ) ^ k) ≠ 0 := by positivity
    rw [div_eq_div_iff (by norm_num : (10 : ℚ) ≠ 0) h2k] at hmk
    have hz : (2 : ℤ) ^ k = 10 * m := by
      have hq : ((2 ^ k : ℤ) : ℚ) = ((10 * m : ℤ) : ℚ) := by
        push_cast
        linarith
      exact_mod_cast hq
    have h5 : (5 : ℤ) ∣ 2 ^ k := ⟨2 * m, by linarith⟩
    have h5n : (5 : ℕ) ∣ 2 ^ k := by
      have h5z : ((5 : ℕ) : ℤ) ∣ ((2 ^ k : ℕ) : ℤ) := by
        push_cast
        exact h5
      exact_mod_cast h5z
    have hdvd := Nat.Prime.dvd_of_dvd_pow (p := 5) (by norm_num) h5n
    norm_num at hdvd

end EMS
